import Mathlib

/-! Shallow embedding of the HealthMap core: entity records, the merge engine
and validator from backend/utils/json_utils.py, the payload extraction and
required-field defaulting from backend/enrichment/claude.py, the single-entity
pipeline from backend/main.py, and the batch orchestrator from
tools/batch_update.py. -/

deriving instance DecidableEq for Except

namespace HealthMap

/-- Scalar JSON value stored in an entity field: JSON null or a string.
Python truthiness: None and the empty string are falsy. -/
inductive SVal where
  | null : SVal
  | s (v : String) : SVal
  deriving DecidableEq

/-- One relationship object: a dict that may or may not carry the keys
"target" and "type" (absence is modelled by none), plus any auxiliary
attributes, carried verbatim. -/
structure Rel where
  target : Option String := none
  type : Option String := none
  aux : List (String × String) := []
  deriving DecidableEq

/-- One entity record: a dict with the fields the core reads. A field whose
value is none models a dict without that key; some models a present key
(possibly bound to null via SVal.null or to an empty list). extra carries
any other keys of the existing record, which merge copies untouched. -/
structure Entity where
  name : Option SVal := none
  type : Option SVal := none
  parent : Option SVal := none
  revenue : Option SVal := none
  subsidiaries : Option (List String) := none
  relationships : Option (List Rel) := none
  extra : List (String × String) := []
  deriving DecidableEq

/-- Python truthiness of a scalar JSON value: None and "" are falsy. -/
def svalTruthy : SVal → Bool
  | .null => false
  | .s v => v ≠ ""

/-- Python test for the pattern: field in new_data and new_data[field]. -/
def truthyOpt : Option SVal → Bool
  | none => false
  | some v => svalTruthy v

/-- Python truthiness of the whole record dict: falsy iff no key is present. -/
def isEmptyEntity (e : Entity) : Bool :=
  e.name.isNone && e.type.isNone && e.parent.isNone && e.revenue.isNone &&
    e.subsidiaries.isNone && e.relationships.isNone && e.extra.isEmpty

/-- Relationship list of a record, defaulting to the empty list when the
"relationships" key is absent. -/
def relsOf (e : Entity) : List Rel := e.relationships.getD []

/-- Every relationship entry carries both the "target" and the "type" key:
the well-formedness condition of the claims. -/
def RelsKeyed (rels : List Rel) : Prop :=
  ∀ r ∈ rels, r.target ≠ none ∧ r.type ≠ none

instance (rels : List Rel) : Decidable (RelsKeyed rels) :=
  List.decidableBAll _ rels

/-- Selector for the four scalar fields handled by the merge loop
(json_utils.py line 168). -/
inductive ScalarField where
  | name
  | type
  | parent
  | revenue
  deriving DecidableEq

/-- Read one scalar field of a record. -/
def getScalar (e : Entity) : ScalarField → Option SVal
  | .name => e.name
  | .type => e.type
  | .parent => e.parent
  | .revenue => e.revenue

/-- Merge of one scalar field (json_utils.py lines 168-170): the incoming
value overwrites only when the key is present and its value truthy. -/
def mergeScalar (e n : Option SVal) : Option SVal :=
  if truthyOpt n then n else e

/-- Subsidiary loop of json_utils.py lines 178-180: append each new
subsidiary that is not already in the accumulated merged list. -/
def addNewSubs : List String → List String → List String
  | acc, [] => acc
  | acc, s :: ss => if s ∈ acc then addNewSubs acc ss else addNewSubs (acc ++ [s]) ss

/-- Subsidiary merge of json_utils.py lines 172-180, including the Python
truthiness guard on the incoming list and the creation of a fresh empty
list when the existing record has no "subsidiaries" key. -/
def mergeSubs (e n : Option (List String)) : Option (List String) :=
  match n with
  | none => e
  | some ns => if ns.isEmpty then e else some (addNewSubs (e.getD []) ns)

/-- Key pairs of the relationship entries that carry both keys. -/
def relKeysOf (rels : List Rel) : List (String × String) :=
  rels.filterMap (fun r =>
    match r.target, r.type with
    | some t, some ty => some (t, ty)
    | _, _ => none)

/-- Set comprehension of json_utils.py line 188: building the (target, type)
lookup set indexes rel["target"] and rel["type"] unguarded, so a missing key
raises KeyError, modelled as an error value. -/
def relKeys : List Rel → Except String (List (String × String))
  | [] => .ok []
  | r :: rs =>
    match r.target with
    | none => .error "KeyError: target"
    | some t =>
      match r.type with
      | none => .error "KeyError: type"
      | some ty =>
        match relKeys rs with
        | .ok ks => .ok ((t, ty) :: ks)
        | .error e => .error e

/-- Relationship loop of json_utils.py lines 191-195: an incoming entry is
appended only when it carries both keys and its (target, type) pair is not in
the lookup set; the set grows with each appended entry. -/
def addNewRels : List Rel → List (String × String) → List Rel → List Rel
  | acc, _, [] => acc
  | acc, keys, r :: rs =>
    match r.target, r.type with
    | some t, some ty =>
      if (t, ty) ∈ keys then addNewRels acc keys rs
      else addNewRels (acc ++ [r]) ((t, ty) :: keys) rs
    | _, _ => addNewRels acc keys rs

/-- Relationship merge of json_utils.py lines 182-195, with the truthiness
guard on the incoming list and the empty-list default for the existing side. -/
def mergeRels (e n : Option (List Rel)) : Except String (Option (List Rel)) :=
  match n with
  | none => .ok e
  | some ns =>
    if ns.isEmpty then .ok e
    else
      match relKeys (e.getD []) with
      | .error err => .error err
      | .ok ks => .ok (some (addNewRels (e.getD []) ks ns))

/-- Merge of json_utils.py lines 150-197. A falsy (empty) existing dict
returns the new data unchanged; otherwise the existing record is copied and
the scalar, subsidiary and relationship fields are merged in. The Except
layer carries the KeyError that line 188 can raise. -/
def merge_entity_data (existing_data new_data : Entity) : Except String Entity :=
  if isEmptyEntity existing_data then .ok new_data
  else
    match mergeRels existing_data.relationships new_data.relationships with
    | .error e => .error e
    | .ok rels =>
      .ok { name := mergeScalar existing_data.name new_data.name
            type := mergeScalar existing_data.type new_data.type
            parent := mergeScalar existing_data.parent new_data.parent
            revenue := mergeScalar existing_data.revenue new_data.revenue
            subsidiaries := mergeSubs existing_data.subsidiaries new_data.subsidiaries
            relationships := rels
            extra := existing_data.extra }

/-- Fixed six-value relationship type set (json_utils.py line 143). -/
def valid_types : List String :=
  ["owned_by", "owns", "partner", "competitor", "customer", "vendor"]

/-- Per-relationship checks of json_utils.py lines 132-145, producing the
indexed error messages in source order. The index argument carries the
enumerate counter. -/
def relErrors : Nat → List Rel → List String
  | _, [] => []
  | i, rel :: rest =>
    ((if rel.target.isNone then
        ["Relationship at index " ++ toString i ++ " missing required field: target"]
      else []) ++
     (if rel.type.isNone then
        ["Relationship at index " ++ toString i ++ " missing required field: type"]
      else []) ++
     (match rel.type with
      | some t =>
        if t ∈ valid_types then []
        else ["Relationship at index " ++ toString i ++ " has invalid type: " ++ t]
      | none => [])) ++
    relErrors (i + 1) rest

/-- Validator of json_utils.py lines 104-148: required-field presence for
"name" and "type", then the per-relationship checks. The dynamic shape checks
(relationships or subsidiaries not a list, a relationship not a dict) can
never fire in this typed embedding and contribute no errors here. -/
def validate_entity_json (entity_data : Entity) : Bool × List String :=
  let errors :=
    (if entity_data.name.isNone then ["Missing required field: name"] else []) ++
    (if entity_data.type.isNone then ["Missing required field: type"] else []) ++
    (match entity_data.relationships with
     | some rels => relErrors 0 rels
     | none => [])
  (errors.isEmpty, errors)

/-- Required-field defaulting of claude.py lines 146-150, applied after a
successful JSON parse: a missing name or type key is set to null, a missing
subsidiaries or relationships key is set to the empty list. -/
def fill_required_fields (enriched_data : Entity) : Entity :=
  { enriched_data with
    name := if enriched_data.name.isNone then some SVal.null else enriched_data.name
    type := if enriched_data.type.isNone then some SVal.null else enriched_data.type
    subsidiaries :=
      if enriched_data.subsidiaries.isNone then some [] else enriched_data.subsidiaries
    relationships :=
      if enriched_data.relationships.isNone then some [] else enriched_data.relationships }

/-- Backtick character, written by code point to keep it out of the code text. -/
def btick : Char := Char.ofNat 96

/-- Opening curly brace character. -/
def lbrace : Char := Char.ofNat 123

/-- Closing curly brace character. -/
def rbrace : Char := Char.ofNat 125

/-- Bare markdown fence marker: three backticks. -/
def fence : List Char := [btick, btick, btick]

/-- Tag of a JSON-tagged fence. -/
def jsonTag : List Char := ['j', 's', 'o', 'n']

/-- JSON-tagged fence marker: three backticks followed by the json tag. -/
def fenceJson : List Char := fence ++ jsonTag

/-- Whitespace characters removed by Python str.strip(). -/
def isPySpace (ch : Char) : Bool :=
  ch = ' ' || ch = '\t' || ch = '\n' || ch = '\r' || ch = Char.ofNat 11 || ch = Char.ofNat 12

/-- Python str.strip(): drop leading and trailing whitespace. -/
def pyStrip (s : List Char) : List Char :=
  ((s.dropWhile isPySpace).reverse.dropWhile isPySpace).reverse

/-- Worker for Python str.split(sep): cur accumulates the current part in
reverse, and the counter skips the remaining characters of a matched
separator so matches are non-overlapping and leftmost. -/
def pySplitGo (sep : List Char) : List Char → Nat → List Char → List (List Char)
  | [], _, cur => [cur.reverse]
  | _ :: cs, k + 1, cur => pySplitGo sep cs k cur
  | c :: cs, 0, cur =>
    if sep.isPrefixOf (c :: cs) then cur.reverse :: pySplitGo sep cs (sep.length - 1) []
    else pySplitGo sep cs 0 (c :: cur)

/-- Python str.split(sep): split at each non-overlapping leftmost occurrence
of the separator. -/
def pySplit (sep : List Char) (s : List Char) : List (List Char) :=
  pySplitGo sep s 0 []

/-- Python substring test: sep in s, for a non-empty separator. -/
def pyContains (sep s : List Char) : Bool :=
  decide (1 < (pySplit sep s).length)

/-- Indexing into the part list of a split; the uses below are guarded so the
index is always in range, matching Python list indexing. -/
def listGet (parts : List (List Char)) (i : Nat) : List Char :=
  (parts.get? i).getD []

/-- Longest prefix of a string that stops before the first occurrence of the
separator: the first element of Python str.split(sep). -/
def takeBeforeSep (sep : List Char) : List Char → List Char
  | [] => []
  | ch :: rest => if sep.isPrefixOf (ch :: rest) then [] else ch :: takeBeforeSep sep rest

/-- Suffix of the text starting at the first occurrence of the given
character, as in Python str.find followed by slicing; none when absent. -/
def dropUntilChar (target : Char) : List Char → Option (List Char)
  | [] => none
  | ch :: rest => if ch = target then some (ch :: rest) else dropUntilChar target rest

/-- Brace-depth scan of claude.py lines 125-134: starting at the first
opening brace with count zero, increment on an opening brace, decrement on a
closing brace, and stop inclusively when the count returns to zero; none when
the scan never balances. The count stays at least one until the final brace
because the scan starts at an opening brace. -/
def takeBalanced : List Char → Nat → Option (List Char)
  | [], _ => none
  | ch :: rest, depth =>
    if ch = lbrace then (takeBalanced rest (depth + 1)).map (fun sp => ch :: sp)
    else if ch = rbrace then
      if depth = 1 then some [ch]
      else (takeBalanced rest (depth - 1)).map (fun sp => ch :: sp)
    else (takeBalanced rest depth).map (fun sp => ch :: sp)

/-- Payload extraction of claude.py lines 114-141: first a JSON-tagged fenced
block, else a bare fenced block, else the brace-balanced span from the first
opening brace, else the whole trimmed text. -/
def extract_json_text (response_text : List Char) : List Char :=
  if pyContains fenceJson response_text then
    pyStrip (listGet (pySplit fence (listGet (pySplit fenceJson response_text) 1)) 0)
  else if pyContains fence response_text then
    pyStrip (listGet (pySplit fence response_text) 1)
  else
    match dropUntilChar lbrace response_text with
    | some tail =>
      match takeBalanced tail 0 with
      | some span => pyStrip span
      | none => pyStrip response_text
    | none => pyStrip response_text

/-- Search collaborator result shape (spec section 6). -/
structure SearchResult where
  title : String
  snippet : String := ""
  id : Nat := 0
  deriving DecidableEq

/-- Scraped-facts shape handed to the enrichment collaborator; news carries
the best-effort news attachment of main.py line 86. -/
structure ScrapedData where
  summary : String := ""
  infobox : List (String × String) := []
  sections : List (String × String) := []
  news : List String := []
  deriving DecidableEq

/-- External collaborators of the pipeline (spec section 6): scraping,
search, news, LLM enrichment and the persisted-record store. An error value
models a result dict carrying an "error" key (scrape, enrich) and
load_entity_json returning none models a missing or invalid stored file. -/
structure Collaborators where
  scrape_wikipedia : String → Except String ScrapedData
  search_wikipedia : String → List SearchResult
  scrape_recent_news : String → List String
  enrich_entity_data : String → ScrapedData → Except String Entity
  load_entity_json : String → Option Entity

/-- Storage-key derivation of main.py line 42: lower-case the name and
replace space and slash with underscore (both replacements are per-character,
so one map suffices). -/
def normalizeName (entity_name : String) : String :=
  String.mk (entity_name.toList.map (fun c =>
    let c := c.toLower
    if c = ' ' || c = '/' then '_' else c))

/-- Pipeline of main.py lines 27-115. The value is the returned record (inl
for a dict carrying an "error" key) paired with the list of persisted-record
writes performed; the outer Except is an uncaught Python exception (the
KeyError that merge_entity_data can raise). Validation results are only
logged, so they are computed and discarded as in the source. -/
def processEntity (c : Collaborators) (entity_name : String) (update_existing : Bool) :
    Except String (Sum String Entity × List (String × Entity)) :=
  let entity_filepath := "data/entities/" ++ normalizeName entity_name ++ ".json"
  let existing_data : Option Entity :=
    if update_existing then c.load_entity_json entity_filepath else none
  let scraped0 : Sum String ScrapedData :=
    match c.scrape_wikipedia entity_name with
    | .ok d => .inr d
    | .error _ =>
      match c.search_wikipedia entity_name with
      | [] => .inl ("Could not find Wikipedia data for " ++ entity_name)
      | first_result :: _ =>
        match c.scrape_wikipedia first_result.title with
        | .ok d => .inr d
        | .error _ => .inl ("Could not find Wikipedia data for " ++ entity_name)
  match scraped0 with
  | .inl err => .ok (.inl err, [])
  | .inr scraped_data =>
    let news_data := c.scrape_recent_news entity_name
    let scraped_data :=
      if news_data.isEmpty then scraped_data else { scraped_data with news := news_data }
    match c.enrich_entity_data entity_name scraped_data with
    | .error err => .ok (.inl err, [])
    | .ok enriched_data =>
      match (match existing_data with
             | some ex =>
               if isEmptyEntity ex then Except.ok enriched_data
               else merge_entity_data ex enriched_data
             | none => Except.ok enriched_data) with
      | .error e => .error e
      | .ok merged_data =>
        let _ := validate_entity_json merged_data
        .ok (.inr merged_data, [(entity_filepath, merged_data)])

/-- Wrapper of batch_update.py lines 25-42: catch any exception from the
pipeline run and turn exceptions and error-carrying results into a
(name, success, error) triple. -/
def process_entity_wrapper (c : Collaborators) (entity_name : String) (update_existing : Bool) :
    String × Bool × Option String :=
  match processEntity c entity_name update_existing with
  | .error e => (entity_name, false, some e)
  | .ok (.inl err, _) => (entity_name, false, some err)
  | .ok (.inr _, _) => (entity_name, true, none)

/-- Result-tally loop of batch_update.py lines 104-113. Completion order of
the worker pool is unspecified; the submission order is one admissible
schedule and the tallies are order-independent. -/
def batchLoop (c : Collaborators) (update_existing : Bool) :
    List String → Nat → Nat → List (String × Option String) →
      Nat × Nat × List (String × Option String)
  | [], success_count, failure_count, failures => (success_count, failure_count, failures)
  | entity :: rest, success_count, failure_count, failures =>
    let r := process_entity_wrapper c entity update_existing
    if r.2.1 then
      batchLoop c update_existing rest (success_count + 1) failure_count failures
    else
      batchLoop c update_existing rest success_count (failure_count + 1)
        (failures ++ [(r.1, r.2.2)])

/-- Batch orchestrator of batch_update.py lines 44-117 on an explicit entity
list (the CSV input path is an external collaborator and out of scope): an
empty list short-circuits to zero counts, otherwise every entity is processed
and tallied. -/
def batch_process (c : Collaborators) (entity_list : List String) (update_existing : Bool) :
    Nat × Nat × List (String × Option String) :=
  if entity_list.isEmpty then (0, 0, [])
  else batchLoop c update_existing entity_list 0 0 []

/-- Concrete existing record for the C9 partiality instance: its single
relationship entry lacks the "target" key. -/
def entMissingTarget : Entity :=
  { relationships := some [{ type := some "owned_by" }] }

/-- Concrete empty record: a dict with no keys, which Python treats as falsy. -/
def emptyEntity : Entity := {}

/-- Concrete incoming record whose "name" key is present but bound to the
empty string (falsy). -/
def entEmptyName : Entity := { name := some (.s "") }

/-- Concrete scraped facts used by the pipeline fixtures. -/
def scrapedFix : ScrapedData := { summary := "summary" }

/-- Concrete enriched record used by the pipeline fixtures. -/
def entFix : Entity := { name := some (.s "Acme"), type := some (.s "Payer") }

/-- Collaborator fixture whose scrape always fails and whose search returns
no candidates. -/
def cAbort : Collaborators :=
  { scrape_wikipedia := fun _ => .error "Page not found"
    search_wikipedia := fun _ => []
    scrape_recent_news := fun _ => []
    enrich_entity_data := fun _ _ => .error "unused"
    load_entity_json := fun _ => none }

/-- Collaborator fixture for a fully successful pipeline run. -/
def cOk : Collaborators :=
  { scrape_wikipedia := fun _ => .ok scrapedFix
    search_wikipedia := fun _ => []
    scrape_recent_news := fun _ => []
    enrich_entity_data := fun _ _ => .ok entFix
    load_entity_json := fun _ => none }

/-- Collaborator fixture for the batch example: scraping fails for entity E3
only, and search then returns no candidates. -/
def cBatch : Collaborators :=
  { scrape_wikipedia := fun n => if n = "E3" then .error "Page not found" else .ok scrapedFix
    search_wikipedia := fun _ => []
    scrape_recent_news := fun _ => []
    enrich_entity_data := fun _ _ => .ok entFix
    load_entity_json := fun _ => none }

/-- Concrete existing record for the C8 witness: subsidiaries X and Y. -/
def entSubsXY : Entity := { subsidiaries := some ["X", "Y"] }

/-- Concrete incoming record for the C8 witness: subsidiaries Y and Z. -/
def entSubsYZ : Entity := { subsidiaries := some ["Y", "Z"] }

/-- Concrete incoming record carrying one well-keyed relationship. -/
def entQOwns : Entity := { relationships := some [{ target := some "Q", type := some "owns" }] }

/-- Concrete existing record with one relationship, for the C1 and C2
witnesses. -/
def entRelP : Entity :=
  { name := some (.s "A"), relationships := some [{ target := some "P", type := some "owned_by" }] }

/-- Concrete incoming record with a duplicate-keyed relationship carrying
different auxiliary data, plus a fresh relationship. -/
def entRelPdup : Entity :=
  { relationships :=
      some [{ target := some "P", type := some "owned_by", aux := [("source", "news")] },
            { target := some "Q", type := some "owns" }] }

/-- Concrete invalid record of the spec example: relationship type "ally" is
outside the six-value set. -/
def entAcmeAlly : Entity :=
  { name := some (.s "Acme"), type := some (.s "Vendor")
    relationships := some [{ target := some "X", type := some "ally" }] }


/-- Unfolding of Python dict truthiness: a record is falsy exactly when no
key is present. -/
theorem isEmptyEntity_iff {e : Entity} :
    isEmptyEntity e = true ↔
      e.name = none ∧ e.type = none ∧ e.parent = none ∧ e.revenue = none ∧
        e.subsidiaries = none ∧ e.relationships = none ∧ e.extra = [] := by
  simp [isEmptyEntity, Bool.and_eq_true, Option.isNone_iff_eq_none, List.isEmpty_iff, and_assoc]

/-- Merging a scalar field never erases a present key. -/
theorem mergeScalar_ne_none {e : Option SVal} (n : Option SVal) (h : e ≠ none) :
    mergeScalar e n ≠ none := by
  unfold mergeScalar
  split
  · rename_i ht
    cases n with
    | none => simp [truthyOpt] at ht
    | some v => simp
  · exact h

/-- Merging the subsidiary field never erases a present key. -/
theorem mergeSubs_ne_none {e : Option (List String)} (n : Option (List String)) (h : e ≠ none) :
    mergeSubs e n ≠ none := by
  unfold mergeSubs
  cases n with
  | none => exact h
  | some ns =>
    by_cases hns : ns.isEmpty
    · simp [hns]; exact fun hc => h hc
    · simp [hns]

/-- Key-pair membership in terms of the relationship entries. -/
theorem mem_relKeysOf {l : List Rel} {a b : String} :
    (a, b) ∈ relKeysOf l ↔ ∃ r ∈ l, r.target = some a ∧ r.type = some b := by
  simp only [relKeysOf, List.mem_filterMap]
  constructor
  · rintro ⟨r, hr, hf⟩
    refine ⟨r, hr, ?_⟩
    cases ht : r.target with
    | none => rw [ht] at hf; simp at hf
    | some t =>
      cases hty : r.type with
      | none => rw [ht, hty] at hf; simp at hf
      | some ty =>
        rw [ht, hty] at hf
        simp only [Option.some.injEq, Prod.mk.injEq] at hf
        obtain ⟨h1, h2⟩ := hf
        exact ⟨by rw [h1], by rw [h2]⟩
  · rintro ⟨r, hr, ht, hty⟩
    exact ⟨r, hr, by rw [ht, hty]⟩

/-- When every relationship entry carries both keys, the lookup-set build of
line 188 succeeds and returns exactly the key pairs. -/
theorem relKeys_ok : ∀ (l : List Rel), RelsKeyed l → relKeys l = .ok (relKeysOf l)
  | [], _ => rfl
  | r :: rs, h => by
    obtain ⟨ht, hty⟩ := h r (List.mem_cons_self r rs)
    obtain ⟨t, htv⟩ := Option.ne_none_iff_exists'.mp ht
    obtain ⟨ty, htyv⟩ := Option.ne_none_iff_exists'.mp hty
    have ih := relKeys_ok rs (fun x hx => h x (List.mem_cons_of_mem _ hx))
    simp [relKeys, htv, htyv, ih, relKeysOf, List.filterMap_cons]

/-- Convenience record for the result of a non-degenerate merge: the copy of
the existing record with the merged fields written over it. -/
def mergedRecord (A B : Entity) (rels : Option (List Rel)) : Entity :=
  { name := mergeScalar A.name B.name
    type := mergeScalar A.type B.type
    parent := mergeScalar A.parent B.parent
    revenue := mergeScalar A.revenue B.revenue
    subsidiaries := mergeSubs A.subsidiaries B.subsidiaries
    relationships := rels
    extra := A.extra }

/-- Unfolding of merge_entity_data on a truthy existing record whose
relationship merge succeeded. -/
theorem merge_eq_mergedRecord {A B : Entity} {rels : Option (List Rel)}
    (hEmp : isEmptyEntity A = false)
    (hrels : mergeRels A.relationships B.relationships = .ok rels) :
    merge_entity_data A B = .ok (mergedRecord A B rels) := by
  simp [merge_entity_data, hEmp, hrels, mergedRecord]

/-- The relationship merge succeeds whenever the existing entries all carry
both keys. -/
theorem mergeRels_total {e : Option (List Rel)} (n : Option (List Rel))
    (hkeyed : RelsKeyed (e.getD [])) : ∃ rels, mergeRels e n = .ok rels := by
  cases n with
  | none => exact ⟨e, rfl⟩
  | some ns =>
    by_cases hns : ns.isEmpty
    · exact ⟨e, by simp [mergeRels, hns]⟩
    · exact ⟨some (addNewRels (e.getD []) (relKeysOf (e.getD [])) ns),
        by simp [mergeRels, hns, relKeys_ok _ hkeyed]⟩

/-- C3 (corrected), amended claim: for a non-empty existing record, every
scalar field of the merge result is the incoming value exactly when the
incoming key is present with a truthy (non-empty, non-null) value, and the
existing value otherwise. -/
theorem merge_scalar_fields_amended (E N : Entity) (f : ScalarField) (M : Entity)
    (hne : isEmptyEntity E = false) (h : merge_entity_data E N = .ok M) :
    getScalar M f =
      if truthyOpt (getScalar N f) then getScalar N f else getScalar E f := by
  unfold merge_entity_data at h
  rw [hne] at h
  simp only [Bool.false_eq_true, if_false] at h
  cases hrel : mergeRels E.relationships N.relationships with
  | error e => rw [hrel] at h; exact absurd h (by simp)
  | ok rels =>
    rw [hrel] at h
    simp only [Except.ok.injEq] at h
    subst h
    cases f <;> simp [getScalar, mergeScalar]

/-- Witness for the amended C3 theorem at a concrete non-empty record. -/
theorem merge_scalar_fields_amended_witness :
    isEmptyEntity entFix = false ∧ merge_entity_data entFix emptyEntity = .ok entFix ∧
      getScalar entFix .name =
        (if truthyOpt (getScalar emptyEntity .name) then getScalar emptyEntity .name
         else getScalar entFix .name) :=
  ⟨by decide, by decide,
   merge_scalar_fields_amended entFix emptyEntity .name entFix (by decide) (by decide)⟩

/-- C3 counterexample: when the existing record is the empty dict (falsy in
Python), merge_entity_data returns the incoming record verbatim, so an
incoming scalar that is present but empty is kept instead of being replaced
by the (absent) existing value — the claim as stated fails at this input. -/
theorem merge_scalar_empty_existing_counterexample :
    merge_entity_data emptyEntity entEmptyName = .ok entEmptyName ∧
      truthyOpt (getScalar entEmptyName .name) = false ∧
      ¬ (getScalar entEmptyName .name =
          if truthyOpt (getScalar entEmptyName .name) then getScalar entEmptyName .name
          else getScalar emptyEntity .name) := by
  refine ⟨by decide, by decide, ?_⟩
  decide

/-- C9: merge_entity_data is not total on dict-shaped records: with an
existing record whose relationship entry lacks the "target" key, any incoming
record with a truthy relationships list makes line 188 raise KeyError; and
under the precondition that every existing relationship entry carries both
keys, the merge always succeeds. -/
theorem merge_keyerror_partiality :
    (∀ (N : Entity) (ns : List Rel), N.relationships = some ns → ns ≠ [] →
        merge_entity_data entMissingTarget N = .error "KeyError: target") ∧
      (∀ E N : Entity, RelsKeyed (relsOf E) → ∃ M, merge_entity_data E N = .ok M) := by
  constructor
  · intro N ns hrel hne
    have hns : ns.isEmpty = false := by simp [List.isEmpty_iff, hne]
    simp [merge_entity_data, mergeRels, hrel, hns, entMissingTarget, relKeys, isEmptyEntity]
  · intro E N hkeyed
    by_cases hE : isEmptyEntity E
    · exact ⟨N, by simp [merge_entity_data, hE]⟩
    · have hE' : isEmptyEntity E = false := by simpa using hE
      obtain ⟨rels, hrels⟩ := mergeRels_total N.relationships (by rwa [relsOf] at hkeyed)
      exact ⟨mergedRecord E N rels, merge_eq_mergedRecord hE' hrels⟩

/-- Witness for C9 at concrete records: the KeyError instance and the
totality instance. -/
theorem merge_keyerror_partiality_witness :
    (entQOwns.relationships = some [{ target := some "Q", type := some "owns" }] ∧
        ([{ target := some "Q", type := some "owns" }] : List Rel) ≠ [] ∧
        merge_entity_data entMissingTarget entQOwns = .error "KeyError: target") ∧
      (RelsKeyed (relsOf entFix) ∧ ∃ M, merge_entity_data entFix entQOwns = .ok M) :=
  ⟨⟨rfl, by decide,
    merge_keyerror_partiality.1 entQOwns [{ target := some "Q", type := some "owns" }] rfl
      (by decide)⟩,
   ⟨by decide, merge_keyerror_partiality.2 entFix entQOwns (by decide)⟩⟩

/-- Membership in the accumulated subsidiary list is preserved by the
append-if-new loop. -/
theorem mem_addNewSubs_of_mem_acc :
    ∀ (ss acc : List String) (x : String), x ∈ acc → x ∈ addNewSubs acc ss
  | [], _, _, h => h
  | s :: ss, acc, x, h => by
    by_cases hs : s ∈ acc
    · rw [addNewSubs, if_pos hs]
      exact mem_addNewSubs_of_mem_acc ss acc x h
    · rw [addNewSubs, if_neg hs]
      exact mem_addNewSubs_of_mem_acc ss (acc ++ [s]) x (List.mem_append_left _ h)

/-- Every incoming subsidiary ends up in the merged subsidiary list. -/
theorem mem_addNewSubs_of_mem :
    ∀ (ss acc : List String) (x : String), x ∈ ss → x ∈ addNewSubs acc ss
  | s :: ss, acc, x, h => by
    rcases List.mem_cons.mp h with rfl | hx
    · by_cases hs : x ∈ acc
      · rw [addNewSubs, if_pos hs]
        exact mem_addNewSubs_of_mem_acc ss acc x hs
      · rw [addNewSubs, if_neg hs]
        exact mem_addNewSubs_of_mem_acc ss (acc ++ [x]) x (by simp)
    · by_cases hs : s ∈ acc
      · rw [addNewSubs, if_pos hs]
        exact mem_addNewSubs_of_mem ss acc x hx
      · rw [addNewSubs, if_neg hs]
        exact mem_addNewSubs_of_mem ss (acc ++ [s]) x hx

/-- The append-if-new loop is the identity when everything incoming is
already present. -/
theorem addNewSubs_eq_self :
    ∀ (ss acc : List String), (∀ s ∈ ss, s ∈ acc) → addNewSubs acc ss = acc
  | [], _, _ => rfl
  | s :: ss, acc, h => by
    rw [addNewSubs, if_pos (h s (by simp))]
    exact addNewSubs_eq_self ss acc (fun x hx => h x (by simp [hx]))

/-- On a duplicate-free incoming list the append-if-new loop computes exactly
the order-preserving union: existing entries first, then the incoming entries
not already present. -/
theorem addNewSubs_filter :
    ∀ (ss acc : List String), ss.Nodup →
      addNewSubs acc ss = acc ++ ss.filter (fun s => decide (s ∉ acc))
  | [], acc, _ => by simp [addNewSubs]
  | s :: ss, acc, h => by
    obtain ⟨hs_not, hnd⟩ := List.nodup_cons.mp h
    by_cases hs : s ∈ acc
    · rw [addNewSubs, if_pos hs, addNewSubs_filter ss acc hnd, List.filter_cons]
      simp [hs]
    · rw [addNewSubs, if_neg hs, addNewSubs_filter ss (acc ++ [s]) hnd, List.filter_cons]
      have hfc : ss.filter (fun x => decide (x ∉ acc ++ [s])) =
          ss.filter (fun x => decide (x ∉ acc)) := by
        refine List.filter_congr (fun x hx => ?_)
        have hxs : x ≠ s := fun hc => hs_not (hc ▸ hx)
        simp [List.mem_append, hxs]
      rw [hfc]
      simp [hs, List.append_assoc]

/-- Merging the subsidiary field twice with the same incoming list changes
nothing the second time. -/
theorem mergeSubs_idem (e n : Option (List String)) :
    mergeSubs (mergeSubs e n) n = mergeSubs e n := by
  cases n with
  | none => rfl
  | some ns =>
    by_cases hns : ns.isEmpty
    · simp [mergeSubs, hns]
    · simp only [mergeSubs, hns, Bool.false_eq_true, if_false, Option.getD_some]
      exact congrArg some
        (addNewSubs_eq_self ns _ (fun s hs => mem_addNewSubs_of_mem ns (e.getD []) s hs))

/-- C8: for records with subsidiaries lists (incoming duplicate-free, as the
data model treats subsidiaries as a set), the merged subsidiaries are the
order-preserving union: all existing entries first in order, then the
incoming entries not already present by exact string equality, in incoming
order. -/
theorem merge_subsidiaries_union (E N : Entity) (es ns : List String)
    (hE : RelsKeyed (relsOf E)) (hes : E.subsidiaries = some es)
    (hns : N.subsidiaries = some ns) (hnd : ns.Nodup) :
    ∃ M, merge_entity_data E N = .ok M ∧
      M.subsidiaries = some (es ++ ns.filter (fun s => decide (s ∉ es))) := by
  have hEmp : isEmptyEntity E = false := by
    rw [Bool.eq_false_iff]
    intro h
    rw [isEmptyEntity_iff] at h
    rw [h.2.2.2.2.1] at hes
    exact Option.noConfusion hes
  obtain ⟨rels, hrels⟩ := mergeRels_total N.relationships (by rwa [relsOf] at hE)
  refine ⟨mergedRecord E N rels, merge_eq_mergedRecord hEmp hrels, ?_⟩
  simp only [mergedRecord, mergeSubs, hes, hns]
  by_cases hcase : ns.isEmpty
  · rw [List.isEmpty_iff.mp hcase]
    simp
  · simp only [hcase, Bool.false_eq_true, if_false, Option.getD_some]
    rw [addNewSubs_filter ns es hnd]

/-- Witness for C8 at the spec example: existing X,Y merged with incoming Y,Z
yields X,Y,Z. -/
theorem merge_subsidiaries_union_witness :
    RelsKeyed (relsOf entSubsXY) ∧ entSubsXY.subsidiaries = some ["X", "Y"] ∧
      entSubsYZ.subsidiaries = some ["Y", "Z"] ∧ (["Y", "Z"] : List String).Nodup ∧
      (∃ M, merge_entity_data entSubsXY entSubsYZ = .ok M ∧
        M.subsidiaries =
          some (["X", "Y"] ++
            (["Y", "Z"] : List String).filter
              (fun s => decide (s ∉ (["X", "Y"] : List String))))) ∧
      merge_entity_data entSubsXY entSubsYZ = .ok { subsidiaries := some ["X", "Y", "Z"] } :=
  ⟨by decide, rfl, rfl, by decide,
   merge_subsidiaries_union entSubsXY entSubsYZ ["X", "Y"] ["Y", "Z"] (by decide) rfl rfl
     (by decide),
   by decide⟩

/-- Full description of one pass of the relationship loop: given that the
key set indexes exactly the accumulated entries, the loop appends a sublist
of the incoming entries, each carrying both keys and a pair outside the key
set, and after the pass every keyed incoming pair is represented. -/
theorem addNewRels_spec :
    ∀ (ns acc : List Rel) (keys : List (String × String)),
      (∀ a b : String,
        ((a, b) ∈ keys ↔ ∃ m ∈ acc, m.target = some a ∧ m.type = some b)) →
      ∃ t, addNewRels acc keys ns = acc ++ t ∧ t.Sublist ns ∧
        (∀ r ∈ t, ∃ a b : String, r.target = some a ∧ r.type = some b ∧ (a, b) ∉ keys) ∧
        (∀ r ∈ ns, ∀ a b : String, r.target = some a → r.type = some b →
          ∃ m ∈ acc ++ t, m.target = some a ∧ m.type = some b)
  | [], acc, keys, _ => ⟨[], by simp [addNewRels], List.nil_sublist _, by simp, by simp⟩
  | r :: rs, acc, keys, hinv => by
    cases hT : r.target with
    | none =>
      obtain ⟨t, heq, hsub, hprops, hcompl⟩ := addNewRels_spec rs acc keys hinv
      refine ⟨t, ?_, hsub.cons _, hprops, ?_⟩
      · simp only [addNewRels, hT]; exact heq
      · intro x hx a b hta htyb
        rcases List.mem_cons.mp hx with rfl | hxs
        · rw [hT] at hta; exact Option.noConfusion hta
        · exact hcompl x hxs a b hta htyb
    | some tv =>
      cases hTy : r.type with
      | none =>
        obtain ⟨t, heq, hsub, hprops, hcompl⟩ := addNewRels_spec rs acc keys hinv
        refine ⟨t, ?_, hsub.cons _, hprops, ?_⟩
        · simp only [addNewRels, hT, hTy]; exact heq
        · intro x hx a b hta htyb
          rcases List.mem_cons.mp hx with rfl | hxs
          · rw [hTy] at htyb; exact Option.noConfusion htyb
          · exact hcompl x hxs a b hta htyb
      | some tyv =>
        by_cases hk : (tv, tyv) ∈ keys
        · obtain ⟨t, heq, hsub, hprops, hcompl⟩ := addNewRels_spec rs acc keys hinv
          refine ⟨t, ?_, hsub.cons _, hprops, ?_⟩
          · simp only [addNewRels, hT, hTy, if_pos hk]; exact heq
          · intro x hx a b hta htyb
            rcases List.mem_cons.mp hx with rfl | hxs
            · rw [hT] at hta; rw [hTy] at htyb
              obtain rfl : tv = a := Option.some.inj hta
              obtain rfl : tyv = b := Option.some.inj htyb
              obtain ⟨m, hm, hmp⟩ := (hinv tv tyv).mp hk
              exact ⟨m, List.mem_append_left _ hm, hmp⟩
            · exact hcompl x hxs a b hta htyb
        · have hinv' : ∀ a b : String, ((a, b) ∈ (tv, tyv) :: keys ↔
              ∃ m ∈ acc ++ [r], m.target = some a ∧ m.type = some b) := by
            intro a b
            constructor
            · intro hmem
              rcases List.mem_cons.mp hmem with heqp | hmem'
              · obtain ⟨h1, h2⟩ := Prod.mk.injEq a b tv tyv ▸ heqp
                refine ⟨r, by simp, by rw [hT, h1], by rw [hTy, h2]⟩
              · obtain ⟨m, hm, hmp⟩ := (hinv a b).mp hmem'
                exact ⟨m, List.mem_append_left _ hm, hmp⟩
            · rintro ⟨m, hm, hmt, hmty⟩
              rcases List.mem_append.mp hm with hma | hmr
              · exact List.mem_cons_of_mem _ ((hinv a b).mpr ⟨m, hma, hmt, hmty⟩)
              · have hmr' : m = r := by simpa using hmr
                subst hmr'
                rw [hT] at hmt; rw [hTy] at hmty
                have h1 := Option.some.inj hmt
                have h2 := Option.some.inj hmty
                simp [← h1, ← h2]
          obtain ⟨t, heq, hsub, hprops, hcompl⟩ :=
            addNewRels_spec rs (acc ++ [r]) ((tv, tyv) :: keys) hinv'
          refine ⟨r :: t, ?_, hsub.cons₂ r, ?_, ?_⟩
          · simp only [addNewRels, hT, hTy, if_neg hk]
            rw [heq, List.append_assoc]
            rfl
          · intro x hx
            rcases List.mem_cons.mp hx with rfl | hxt
            · exact ⟨tv, tyv, hT, hTy, hk⟩
            · obtain ⟨a, b, h1, h2, h3⟩ := hprops x hxt
              exact ⟨a, b, h1, h2, fun hc => h3 (List.mem_cons_of_mem _ hc)⟩
          · intro x hx a b hta htyb
            rcases List.mem_cons.mp hx with rfl | hxs
            · exact ⟨x, List.mem_append_right _ (by simp), hta, htyb⟩
            · obtain ⟨m, hm, hmp⟩ := hcompl x hxs a b hta htyb
              refine ⟨m, ?_, hmp⟩
              simpa [List.append_assoc] using hm

/-- The relationship loop changes nothing when every keyed incoming pair is
already in the key set. -/
theorem addNewRels_id :
    ∀ (ns acc : List Rel) (keys : List (String × String)),
      (∀ r ∈ ns, ∀ a b : String, r.target = some a → r.type = some b → (a, b) ∈ keys) →
      addNewRels acc keys ns = acc
  | [], _, _, _ => rfl
  | r :: rs, acc, keys, h => by
    cases hT : r.target with
    | none =>
      simp only [addNewRels, hT]
      exact addNewRels_id rs acc keys (fun x hx => h x (List.mem_cons_of_mem _ hx))
    | some tv =>
      cases hTy : r.type with
      | none =>
        simp only [addNewRels, hT, hTy]
        exact addNewRels_id rs acc keys (fun x hx => h x (List.mem_cons_of_mem _ hx))
      | some tyv =>
        have hk := h r (List.mem_cons_self r rs) tv tyv hT hTy
        simp only [addNewRels, hT, hTy, if_pos hk]
        exact addNewRels_id rs acc keys (fun x hx => h x (List.mem_cons_of_mem _ hx))

/-- Description of the relationship merge on a truthy incoming list when the
existing entries all carry both keys. -/
theorem mergeRels_spec (e : Option (List Rel)) (ns : List Rel) (hne : ns ≠ [])
    (hkeyed : RelsKeyed (e.getD [])) :
    ∃ t, mergeRels e (some ns) = .ok (some (e.getD [] ++ t)) ∧ t.Sublist ns ∧
      (∀ r ∈ t, ∃ a b : String, r.target = some a ∧ r.type = some b ∧
        ∀ m ∈ e.getD [], ¬ (m.target = some a ∧ m.type = some b)) ∧
      (∀ r ∈ ns, ∀ a b : String, r.target = some a → r.type = some b →
        ∃ m ∈ e.getD [] ++ t, m.target = some a ∧ m.type = some b) := by
  have hinv : ∀ a b : String, ((a, b) ∈ relKeysOf (e.getD []) ↔
      ∃ m ∈ e.getD [], m.target = some a ∧ m.type = some b) := fun a b => mem_relKeysOf
  obtain ⟨t, heq, hsub, hprops, hcompl⟩ := addNewRels_spec ns (e.getD []) _ hinv
  have hns : ns.isEmpty = false := by simp [List.isEmpty_iff, hne]
  refine ⟨t, ?_, hsub, ?_, hcompl⟩
  · simp only [mergeRels, hns, Bool.false_eq_true, if_false, relKeys_ok _ hkeyed]
    rw [heq]
  · intro r hr
    obtain ⟨a, b, h1, h2, h3⟩ := hprops r hr
    exact ⟨a, b, h1, h2, fun m hm hc => h3 (mem_relKeysOf.mpr ⟨m, hm, hc.1, hc.2⟩)⟩

/-- C2: the merged relationships are the union keyed by (target, type): the
existing entries appear first and unchanged, an incoming entry is appended
only if no existing entry carries its key pair, and every keyed incoming pair
is represented in the result. -/
theorem merge_relationships_union_keyed (E N : Entity)
    (hE : RelsKeyed (relsOf E)) :
    ∃ M t, merge_entity_data E N = .ok M ∧
      relsOf M = relsOf E ++ t ∧ t.Sublist (relsOf N) ∧
      (∀ r ∈ t, ∀ x ∈ relsOf E, ¬ (x.target = r.target ∧ x.type = r.type)) ∧
      (∀ r ∈ relsOf N, ∀ a b : String, r.target = some a → r.type = some b →
        ∃ m ∈ relsOf M, m.target = some a ∧ m.type = some b) := by
  by_cases hEmp : isEmptyEntity E
  · have hrE : E.relationships = none := (isEmptyEntity_iff.mp hEmp).2.2.2.2.2.1
    refine ⟨N, relsOf N, by simp [merge_entity_data, hEmp], ?_, List.Sublist.refl _, ?_, ?_⟩
    · simp [relsOf, hrE]
    · intro r _ x hx
      rw [relsOf, hrE] at hx
      simp at hx
    · intro r hr a b h1 h2
      exact ⟨r, hr, h1, h2⟩
  · have hEmp' : isEmptyEntity E = false := by simpa using hEmp
    cases hNrel : N.relationships with
    | none =>
      refine ⟨mergedRecord E N E.relationships, [],
        merge_eq_mergedRecord hEmp' (by rw [hNrel]; rfl), ?_, List.nil_sublist _, by simp, ?_⟩
      · simp [relsOf, mergedRecord]
      · intro r hr
        rw [relsOf, hNrel] at hr
        simp at hr
    | some ns =>
      by_cases hnsE : ns = []
      · subst hnsE
        refine ⟨mergedRecord E N E.relationships, [],
          merge_eq_mergedRecord hEmp' (by rw [hNrel]; simp [mergeRels]), ?_,
          List.nil_sublist _, by simp, ?_⟩
        · simp [relsOf, mergedRecord]
        · intro r hr
          rw [relsOf, hNrel] at hr
          simp at hr
      · obtain ⟨t, heq, hsub, hprops, hcompl⟩ := mergeRels_spec E.relationships ns hnsE hE
        refine ⟨mergedRecord E N (some (E.relationships.getD [] ++ t)), t,
          merge_eq_mergedRecord hEmp' (by rw [hNrel]; exact heq), ?_, ?_, ?_, ?_⟩
        · simp [relsOf, mergedRecord]
        · rw [relsOf, hNrel]
          simpa using hsub
        · intro r hr x hx hc
          obtain ⟨a, b, h1, h2, h3⟩ := hprops r hr
          exact h3 x hx ⟨by rw [hc.1, h1], by rw [hc.2, h2]⟩
        · intro r hr a b h1 h2
          rw [relsOf, hNrel] at hr
          obtain ⟨m, hm, hmp⟩ := hcompl r (by simpa using hr) a b h1 h2
          exact ⟨m, by simpa [relsOf, mergedRecord] using hm, hmp⟩

/-- Witness for C2 at concrete records, plus the evaluated merge showing the
duplicate-keyed incoming entry with different auxiliary data is dropped and
the existing entry kept unchanged. -/
theorem merge_relationships_union_keyed_witness :
    RelsKeyed (relsOf entRelP) ∧
      (∃ M t, merge_entity_data entRelP entRelPdup = .ok M ∧
        relsOf M = relsOf entRelP ++ t ∧ t.Sublist (relsOf entRelPdup) ∧
        (∀ r ∈ t, ∀ x ∈ relsOf entRelP, ¬ (x.target = r.target ∧ x.type = r.type)) ∧
        (∀ r ∈ relsOf entRelPdup, ∀ a b : String, r.target = some a → r.type = some b →
          ∃ m ∈ relsOf M, m.target = some a ∧ m.type = some b)) ∧
      merge_entity_data entRelP entRelPdup =
        .ok { name := some (.s "A")
              relationships := some [{ target := some "P", type := some "owned_by" },
                                     { target := some "Q", type := some "owns" }] } :=
  ⟨by decide,
   merge_relationships_union_keyed entRelP entRelPdup (by decide), by decide⟩

/-- Merging one scalar field with itself changes nothing. -/
theorem mergeScalar_self (x : Option SVal) : mergeScalar x x = x := by
  unfold mergeScalar
  split <;> rfl

/-- Re-merging one scalar field with the same incoming value changes nothing. -/
theorem mergeScalar_idem (e n : Option SVal) :
    mergeScalar (mergeScalar e n) n = mergeScalar e n := by
  unfold mergeScalar
  by_cases h : truthyOpt n <;> simp [h]

/-- Merging the subsidiary field with itself changes nothing. -/
theorem mergeSubs_self (x : Option (List String)) : mergeSubs x x = x := by
  cases x with
  | none => rfl
  | some ns =>
    by_cases hns : ns.isEmpty
    · simp [mergeSubs, hns]
    · simp only [mergeSubs, hns, Bool.false_eq_true, if_false, Option.getD_some]
      exact congrArg some (addNewSubs_eq_self ns ns (fun s hs => hs))

/-- Merging a well-keyed record with itself returns it unchanged. -/
theorem merge_self (B : Entity) (hB : RelsKeyed (relsOf B)) :
    merge_entity_data B B = .ok B := by
  by_cases hEmp : isEmptyEntity B
  · simp [merge_entity_data, hEmp]
  · have hEmp' : isEmptyEntity B = false := by simpa using hEmp
    have hrels : mergeRels B.relationships B.relationships = .ok B.relationships := by
      cases hn : B.relationships with
      | none => rfl
      | some ns =>
        by_cases hnsE : ns = []
        · subst hnsE; simp [mergeRels]
        · have hkeyed : RelsKeyed ns := by rwa [relsOf, hn, Option.getD_some] at hB
          have hns : ns.isEmpty = false := by simp [List.isEmpty_iff, hnsE]
          simp only [mergeRels, hns, Bool.false_eq_true, if_false, Option.getD_some,
            relKeys_ok _ hkeyed]
          rw [addNewRels_id ns ns (relKeysOf ns)
            (fun r hr a b h1 h2 => mem_relKeysOf.mpr ⟨r, hr, h1, h2⟩)]
    rw [merge_eq_mergedRecord hEmp' hrels]
    simp [mergedRecord, mergeScalar_self, mergeSubs_self]

/-- A merge starting from a truthy existing record produces a truthy record:
every merged field keeps a present key present. -/
theorem mergedRecord_not_empty {A : Entity} (B : Entity) {rels : Option (List Rel)}
    (hEmp : isEmptyEntity A = false) (hkeep : A.relationships ≠ none → rels ≠ none) :
    isEmptyEntity (mergedRecord A B rels) = false := by
  rw [Bool.eq_false_iff]
  intro hM
  rw [isEmptyEntity_iff] at hM
  obtain ⟨h1, h2, h3, h4, h5, h6, h7⟩ := hM
  simp only [mergedRecord] at h1 h2 h3 h4 h5 h6 h7
  have hA1 : A.name = none := by
    by_contra hc; exact mergeScalar_ne_none B.name hc h1
  have hA2 : A.type = none := by
    by_contra hc; exact mergeScalar_ne_none B.type hc h2
  have hA3 : A.parent = none := by
    by_contra hc; exact mergeScalar_ne_none B.parent hc h3
  have hA4 : A.revenue = none := by
    by_contra hc; exact mergeScalar_ne_none B.revenue hc h4
  have hA5 : A.subsidiaries = none := by
    by_contra hc; exact mergeSubs_ne_none B.subsidiaries hc h5
  have hA6 : A.relationships = none := by
    by_contra hc; exact hkeep hc h6
  rw [isEmptyEntity_iff.mpr ⟨hA1, hA2, hA3, hA4, hA5, hA6, h7⟩] at hEmp
  exact Bool.noConfusion hEmp

/-- C1: repeated identical enrichment is idempotent: for well-formed records
(every relationship entry carries both keys), merging the merge result with
the same incoming record again reproduces it exactly. -/
theorem merge_repeated_enrichment_idempotent (A B : Entity)
    (hA : RelsKeyed (relsOf A)) (hB : RelsKeyed (relsOf B)) :
    ∃ M, merge_entity_data A B = .ok M ∧ merge_entity_data M B = .ok M := by
  by_cases hEmp : isEmptyEntity A
  · exact ⟨B, by simp [merge_entity_data, hEmp], merge_self B hB⟩
  · have hEmp' : isEmptyEntity A = false := by simpa using hEmp
    cases hNrel : B.relationships with
    | none =>
      refine ⟨mergedRecord A B A.relationships,
        merge_eq_mergedRecord hEmp' (by rw [hNrel]; rfl), ?_⟩
      have hMne : isEmptyEntity (mergedRecord A B A.relationships) = false :=
        mergedRecord_not_empty B hEmp' (fun h => h)
      have hrels2 : mergeRels (mergedRecord A B A.relationships).relationships
          B.relationships = .ok (mergedRecord A B A.relationships).relationships := by
        rw [hNrel]; rfl
      rw [merge_eq_mergedRecord hMne hrels2]
      simp [mergedRecord, mergeScalar_idem, mergeSubs_idem]
    | some ns =>
      by_cases hnsE : ns = []
      · subst hnsE
        refine ⟨mergedRecord A B A.relationships,
          merge_eq_mergedRecord hEmp' (by rw [hNrel]; simp [mergeRels]), ?_⟩
        have hMne : isEmptyEntity (mergedRecord A B A.relationships) = false :=
          mergedRecord_not_empty B hEmp' (fun h => h)
        have hrels2 : mergeRels (mergedRecord A B A.relationships).relationships
            B.relationships = .ok (mergedRecord A B A.relationships).relationships := by
          rw [hNrel]; simp [mergeRels]
        rw [merge_eq_mergedRecord hMne hrels2]
        simp [mergedRecord, mergeScalar_idem, mergeSubs_idem]
      · obtain ⟨t, heq, hsub, hprops, hcompl⟩ := mergeRels_spec A.relationships ns hnsE hA
        refine ⟨mergedRecord A B (some (A.relationships.getD [] ++ t)),
          merge_eq_mergedRecord hEmp' (by rw [hNrel]; exact heq), ?_⟩
        have hLkeyed : RelsKeyed (A.relationships.getD [] ++ t) := by
          intro r hr
          rcases List.mem_append.mp hr with h | h
          · exact hA r (by rwa [relsOf])
          · obtain ⟨a, b, h1, h2, _⟩ := hprops r h
            exact ⟨by simp [h1], by simp [h2]⟩
        have hMne : isEmptyEntity
            (mergedRecord A B (some (A.relationships.getD [] ++ t))) = false :=
          mergedRecord_not_empty B hEmp' (fun _ => by simp)
        have hrels2 : mergeRels (some (A.relationships.getD [] ++ t)) B.relationships =
            .ok (some (A.relationships.getD [] ++ t)) := by
          rw [hNrel]
          have hns : ns.isEmpty = false := by simp [List.isEmpty_iff, hnsE]
          simp only [mergeRels, hns, Bool.false_eq_true, if_false, Option.getD_some,
            relKeys_ok _ hLkeyed]
          rw [addNewRels_id ns (A.relationships.getD [] ++ t)
            (relKeysOf (A.relationships.getD [] ++ t))
            (fun r hr a b h1 h2 =>
              mem_relKeysOf.mpr (hcompl r hr a b h1 h2))]
        rw [merge_eq_mergedRecord hMne hrels2]
        simp [mergedRecord, mergeScalar_idem, mergeSubs_idem]

/-- Witness for C1 at concrete well-formed records. -/
theorem merge_repeated_enrichment_idempotent_witness :
    RelsKeyed (relsOf entRelP) ∧ RelsKeyed (relsOf entRelPdup) ∧
      (∃ M, merge_entity_data entRelP entRelPdup = .ok M ∧
        merge_entity_data M entRelPdup = .ok M) :=
  ⟨by decide, by decide,
   merge_repeated_enrichment_idempotent entRelP entRelPdup (by decide) (by decide)⟩

/-- The invalid-type message of a relationship at list position i appears in
the per-relationship error list, with the enumerate counter offset. -/
theorem relErrors_invalid_mem :
    ∀ (rels : List Rel) (k i : Nat) (r : Rel) (t : String),
      rels.get? i = some r → r.type = some t → t ∉ valid_types →
        ("Relationship at index " ++ toString (k + i) ++ " has invalid type: " ++ t) ∈
          relErrors k rels
  | [], _, i, _, _, h, _, _ => by simp at h
  | hd :: tl, k, 0, r, t, hget, hty, hnv => by
    have hr : hd = r := by simpa using hget
    subst hr
    simp only [relErrors, hty, Nat.add_zero]
    simp [List.mem_append, hnv]
  | hd :: tl, k, i + 1, r, t, hget, hty, hnv => by
    have h := relErrors_invalid_mem tl (k + 1) i r t (by simpa using hget) hty hnv
    have hk : k + 1 + i = k + (i + 1) := by omega
    rw [hk] at h
    simp only [relErrors]
    exact List.mem_append_right _ h

/-- C7: a relationship whose type lies outside the fixed six-value set makes
the validator report failure, with an error message naming the entry's index
and the invalid type value. -/
theorem validate_invalid_relationship_type (e : Entity) (rels : List Rel) (i : Nat)
    (r : Rel) (t : String) (hrel : e.relationships = some rels)
    (hget : rels.get? i = some r) (hty : r.type = some t) (hnv : t ∉ valid_types) :
    (validate_entity_json e).1 = false ∧
      ("Relationship at index " ++ toString i ++ " has invalid type: " ++ t) ∈
        (validate_entity_json e).2 := by
  have hmem := relErrors_invalid_mem rels 0 i r t hget hty hnv
  rw [Nat.zero_add] at hmem
  have hmem2 : ("Relationship at index " ++ toString i ++ " has invalid type: " ++ t) ∈
      (validate_entity_json e).2 := by
    simp only [validate_entity_json, hrel]
    exact List.mem_append_right _ hmem
  refine ⟨?_, hmem2⟩
  have hne : (validate_entity_json e).2 ≠ [] := List.ne_nil_of_mem hmem2
  have hfst : (validate_entity_json e).1 = (validate_entity_json e).2.isEmpty := rfl
  rw [hfst, Bool.eq_false_iff]
  intro hc
  exact hne (List.isEmpty_iff.mp hc)

/-- Witness for C7 at the spec example, plus the fully evaluated validator
output. -/
theorem validate_invalid_relationship_type_witness :
    entAcmeAlly.relationships = some [{ target := some "X", type := some "ally" }] ∧
      ("ally" ∉ valid_types) ∧
      ((validate_entity_json entAcmeAlly).1 = false ∧
        ("Relationship at index " ++ toString 0 ++ " has invalid type: " ++ "ally") ∈
          (validate_entity_json entAcmeAlly).2) ∧
      validate_entity_json entAcmeAlly =
        (false, ["Relationship at index 0 has invalid type: ally"]) :=
  ⟨rfl, by decide,
   validate_invalid_relationship_type entAcmeAlly
     [{ target := some "X", type := some "ally" }] 0
     { target := some "X", type := some "ally" } "ally" rfl rfl rfl (by decide),
   by decide⟩

/-- Every message produced by the per-relationship checks starts with the
letter R of "Relationship at index". -/
theorem relErrors_head :
    ∀ (rels : List Rel) (k : Nat) (msg : String), msg ∈ relErrors k rels →
      msg.data.head? = some 'R'
  | [], _, _, h => by simp [relErrors] at h
  | hd :: tl, k, msg, h => by
    simp only [relErrors, List.mem_append] at h
    rcases h with ((h | h) | h) | h
    · revert h
      split
      · intro h
        rw [List.mem_singleton.mp h]
        rfl
      · intro h
        simp at h
    · revert h
      split
      · intro h
        rw [List.mem_singleton.mp h]
        rfl
      · intro h
        simp at h
    · revert h
      split
      · split
        · intro h
          simp at h
        · intro h
          rw [List.mem_singleton.mp h]
          rfl
      · intro h
        simp at h
    · exact relErrors_head tl (k + 1) msg h

/-- C10: after applying the required-field defaults of claude.py, the record
always carries all four keys (name and type defaulting to null, subsidiaries
and relationships to the empty list), and because the validator checks only
key presence, such a record is never reported as missing name or type. -/
theorem enrich_defaults_required_fields (d : Entity) :
    (fill_required_fields d).name.isSome ∧ (fill_required_fields d).type.isSome ∧
      (fill_required_fields d).subsidiaries.isSome ∧
      (fill_required_fields d).relationships.isSome ∧
      (d.name = none → (fill_required_fields d).name = some SVal.null) ∧
      (d.type = none → (fill_required_fields d).type = some SVal.null) ∧
      (d.subsidiaries = none → (fill_required_fields d).subsidiaries = some []) ∧
      (d.relationships = none → (fill_required_fields d).relationships = some []) ∧
      "Missing required field: name" ∉ (validate_entity_json (fill_required_fields d)).2 ∧
      "Missing required field: type" ∉ (validate_entity_json (fill_required_fields d)).2 := by
  have hname : (fill_required_fields d).name.isSome := by
    simp only [fill_required_fields]
    cases d.name <;> simp
  have htype : (fill_required_fields d).type.isSome := by
    simp only [fill_required_fields]
    cases d.type <;> simp
  have hsubs : (fill_required_fields d).subsidiaries.isSome := by
    simp only [fill_required_fields]
    cases d.subsidiaries <;> simp
  have hrels : (fill_required_fields d).relationships.isSome := by
    simp only [fill_required_fields]
    cases d.relationships <;> simp
  obtain ⟨rl, hrl⟩ := Option.isSome_iff_exists.mp hrels
  have hname' : (fill_required_fields d).name ≠ none := Option.isSome_iff_ne_none.mp hname
  have htype' : (fill_required_fields d).type ≠ none := Option.isSome_iff_ne_none.mp htype
  have herrs : (validate_entity_json (fill_required_fields d)).2 = relErrors 0 rl := by
    simp [validate_entity_json, hrl, Option.isNone_iff_eq_none, hname', htype']
  have hmiss : ∀ s : String, s.data.head? = some 'M' →
      s ∉ (validate_entity_json (fill_required_fields d)).2 := by
    intro s hs hmem
    rw [herrs] at hmem
    have hR := relErrors_head rl 0 s hmem
    rw [hs] at hR
    simp at hR
  refine ⟨hname, htype, hsubs, hrels, ?_, ?_, ?_, ?_, hmiss _ rfl, hmiss _ rfl⟩
  · intro h
    simp [fill_required_fields, h]
  · intro h
    simp [fill_required_fields, h]
  · intro h
    simp [fill_required_fields, h]
  · intro h
    simp [fill_required_fields, h]

/-- Witness for C10 at the empty parsed record: every default fires and the
validator reports neither required field as missing. -/
theorem enrich_defaults_required_fields_witness :
    emptyEntity.name = none ∧
      (fill_required_fields emptyEntity).name = some SVal.null ∧
      (fill_required_fields emptyEntity).subsidiaries = some [] ∧
      "Missing required field: name" ∉ (validate_entity_json (fill_required_fields emptyEntity)).2 :=
  ⟨rfl, (enrich_defaults_required_fields emptyEntity).2.2.2.2.1 rfl,
   (enrich_defaults_required_fields emptyEntity).2.2.2.2.2.2.1 rfl,
   (enrich_defaults_required_fields emptyEntity).2.2.2.2.2.2.2.2.1⟩

/-- C5: when the initial scrape reports an error and the search fallback
returns no candidates, the pipeline aborts with the unresolvable-entity error
and performs zero persisted-record writes; and every successful run performs
exactly one persisted-record write. -/
theorem process_entity_abort_and_single_write :
    (∀ (c : Collaborators) (entity_name : String) (update_existing : Bool) (err : String),
        c.scrape_wikipedia entity_name = .error err →
        c.search_wikipedia entity_name = [] →
        processEntity c entity_name update_existing =
          .ok (.inl ("Could not find Wikipedia data for " ++ entity_name), [])) ∧
      (∀ (c : Collaborators) (entity_name : String) (update_existing : Bool)
          (ent : Entity) (writes : List (String × Entity)),
        processEntity c entity_name update_existing = .ok (.inr ent, writes) →
        writes.length = 1) := by
  constructor
  · intro c entity_name update_existing err hscrape hsearch
    simp [processEntity, hscrape, hsearch]
  · intro c entity_name update_existing ent writes h
    simp only [processEntity] at h
    split at h
    · simp at h
    · split at h
      · simp at h
      · split at h
        · simp at h
        · simp only [Except.ok.injEq, Prod.mk.injEq, Sum.inr.injEq] at h
          obtain ⟨_, hw⟩ := h
          rw [← hw]
          rfl

/-- Witness for C5: the aborting run writes nothing and returns the
unresolvable-entity error; the successful run writes exactly once. -/
theorem process_entity_abort_and_single_write_witness :
    (cAbort.scrape_wikipedia "Acme" = .error "Page not found" ∧
        cAbort.search_wikipedia "Acme" = [] ∧
        processEntity cAbort "Acme" true =
          .ok (.inl ("Could not find Wikipedia data for " ++ "Acme"), [])) ∧
      (processEntity cOk "Acme" true =
          .ok (.inr entFix, [("data/entities/acme.json", entFix)]) ∧
        ([("data/entities/acme.json", entFix)] : List (String × Entity)).length = 1) :=
  ⟨⟨rfl, rfl,
    process_entity_abort_and_single_write.1 cAbort "Acme" true "Page not found" rfl rfl⟩,
   ⟨by decide,
    process_entity_abort_and_single_write.2 cOk "Acme" true entFix
      [("data/entities/acme.json", entFix)] (by decide)⟩⟩

/-- The wrapper triple always carries the submitted entity name first. -/
theorem process_entity_wrapper_fst (c : Collaborators) (entity_name : String)
    (update_existing : Bool) :
    (process_entity_wrapper c entity_name update_existing).1 = entity_name := by
  unfold process_entity_wrapper
  split <;> rfl

/-- Closed form of the batch tally loop: counts and the failure list are
pointwise functions of each entity's own wrapper outcome. -/
theorem batchLoop_eq (c : Collaborators) (upd : Bool) :
    ∀ (l : List String) (s f : Nat) (fails : List (String × Option String)),
      batchLoop c upd l s f fails =
        (s + (l.filter (fun n => (process_entity_wrapper c n upd).2.1)).length,
         f + (l.filter (fun n => !(process_entity_wrapper c n upd).2.1)).length,
         fails ++ l.filterMap (fun n =>
           if (process_entity_wrapper c n upd).2.1 then none
           else some (n, (process_entity_wrapper c n upd).2.2)))
  | [], s, f, fails => by simp [batchLoop]
  | e :: es, s, f, fails => by
    by_cases hsucc : (process_entity_wrapper c e upd).2.1
    · rw [batchLoop]
      simp only [hsucc, if_true]
      rw [batchLoop_eq c upd es (s + 1) f fails]
      simp [List.filter_cons, List.filterMap_cons, hsucc, Nat.add_assoc, Nat.add_comm 1]
    · rw [batchLoop]
      simp only [hsucc, if_false]
      rw [batchLoop_eq c upd es s (f + 1) (fails ++ [((process_entity_wrapper c e upd).1,
        (process_entity_wrapper c e upd).2.2)])]
      have hb : (process_entity_wrapper c e upd).2.1 = false := by simpa using hsucc
      simp [List.filter_cons, List.filterMap_cons, hb, Nat.add_assoc, Nat.add_comm 1,
        process_entity_wrapper_fst, List.append_assoc]

/-- Filtering a list by a Bool predicate and by its negation partitions the
length. -/
theorem length_filter_add_length_filter_not {α : Type} :
    ∀ (l : List α) (p : α → Bool),
      (l.filter p).length + (l.filter (fun x => !(p x))).length = l.length
  | [], _ => rfl
  | x :: xs, p => by
    have ih := length_filter_add_length_filter_not xs p
    by_cases hx : p x
    · simp [List.filter_cons, hx]
      omega
    · have hb : p x = false := by simpa using hx
      simp [List.filter_cons, hb]
      omega

/-- Each failing element contributes exactly one entry to the failure list. -/
theorem length_filterMap_fail {α β : Type} :
    ∀ (l : List α) (p : α → Bool) (g : α → β),
      (l.filterMap (fun n => if p n then none else some (g n))).length =
        (l.filter (fun x => !(p x))).length
  | [], _, _ => rfl
  | x :: xs, p, g => by
    have ih := length_filterMap_fail xs p g
    by_cases hx : p x
    · simp [List.filterMap_cons, List.filter_cons, hx, ih]
    · have hb : p x = false := by simpa using hx
      simp [List.filterMap_cons, List.filter_cons, hb, ih]

/-- C6: the batch orchestrator isolates per-entity failures: each entity's
outcome is a function of its own pipeline run alone, every failing entity
(exception or error-carrying result) contributes exactly one (name, error)
entry, and success and failure counts sum to the number submitted; at the
spec example, five entities with one unresolvable scrape tally as four
successes and one failure naming that entity. -/
theorem batch_process_failure_isolation :
    (∀ (c : Collaborators) (entity_list : List String) (update_existing : Bool),
        (batch_process c entity_list update_existing).1 +
            (batch_process c entity_list update_existing).2.1 = entity_list.length ∧
          (batch_process c entity_list update_existing).2.2.length =
            (batch_process c entity_list update_existing).2.1 ∧
          (batch_process c entity_list update_existing).1 =
            (entity_list.filter
              (fun n => (process_entity_wrapper c n update_existing).2.1)).length ∧
          (batch_process c entity_list update_existing).2.2 =
            entity_list.filterMap (fun n =>
              if (process_entity_wrapper c n update_existing).2.1 then none
              else some (n, (process_entity_wrapper c n update_existing).2.2))) ∧
      batch_process cBatch ["E1", "E2", "E3", "E4", "E5"] true =
        (4, 1, [("E3", some "Could not find Wikipedia data for E3")]) := by
  constructor
  · intro c entity_list update_existing
    by_cases hemp : entity_list.isEmpty
    · rw [List.isEmpty_iff.mp hemp]
      simp [batch_process]
    · have hb : entity_list.isEmpty = false := by simpa using hemp
      unfold batch_process
      rw [hb]
      simp only [Bool.false_eq_true, if_false]
      rw [batchLoop_eq c update_existing entity_list 0 0 []]
      refine ⟨?_, ?_, by simp, by simp⟩
      · simp only [Nat.zero_add]
        exact length_filter_add_length_filter_not entity_list _
      · simp only [Nat.zero_add, List.nil_append]
        exact length_filterMap_fail entity_list _ _
  · decide

/-- The JSON-tagged fence marker in explicit character form. -/
theorem fenceJson_eq : fenceJson = btick :: btick :: btick :: jsonTag := rfl

/-- The bare fence marker in explicit character form. -/
theorem fence_eq : fence = btick :: btick :: btick :: [] := rfl

/-- Skipping exactly the characters of a matched separator resumes the scan
in the initial state. -/
theorem pySplitGo_skip (sep : List Char) :
    ∀ (skipChars rest cur : List Char),
      pySplitGo sep (skipChars ++ rest) skipChars.length cur = pySplitGo sep rest 0 cur
  | [], rest, cur => rfl
  | c :: cs, rest, cur => pySplitGo_skip sep cs rest cur

/-- A split whose input starts with the separator emits the accumulated part
and resumes after the separator. -/
theorem pySplitGo_start (sep rest cur : List Char) (hne : sep ≠ []) :
    pySplitGo sep (sep ++ rest) 0 cur = cur.reverse :: pySplitGo sep rest 0 [] := by
  cases sep with
  | nil => exact absurd rfl hne
  | cons s0 stail =>
    have hpre : (s0 :: stail).isPrefixOf (s0 :: (stail ++ rest)) = true := by
      have h : (s0 :: stail) <+: ((s0 :: stail) ++ rest) := List.prefix_append _ _
      rw [List.cons_append] at h
      simpa [List.isPrefixOf_iff_prefix] using h
    rw [List.cons_append]
    simp only [pySplitGo, hpre, if_true, List.length_cons, Nat.add_sub_cancel]
    rw [pySplitGo_skip (s0 :: stail) stail rest []]

/-- Characters that cannot start the separator are moved into the current
part without producing a split. -/
theorem pySplitGo_no_sep_start (b : Char) (sep' : List Char) :
    ∀ (pre t cur : List Char), b ∉ pre →
      pySplitGo (b :: sep') (pre ++ t) 0 cur =
        pySplitGo (b :: sep') t 0 (pre.reverse ++ cur)
  | [], t, cur, _ => by simp
  | p :: ps, t, cur, h => by
    have hp : b ≠ p := fun hc => h (by rw [hc]; exact List.mem_cons_self p ps)
    have hpre : (b :: sep').isPrefixOf (p :: (ps ++ t)) = false := by
      have hbp : (b == p) = false := beq_eq_false_iff_ne.mpr hp
      simp [List.isPrefixOf_cons₂, hbp]
    rw [List.cons_append]
    simp only [pySplitGo, hpre, Bool.false_eq_true, if_false]
    rw [pySplitGo_no_sep_start b sep' ps t (p :: cur)
      (fun hm => h (List.mem_cons_of_mem _ hm))]
    congr 1
    simp

/-- Splitting a text of the form pre-marker-rest, with no marker-start
character in pre, yields pre as the first part. -/
theorem pySplit_marker (b : Char) (sep' pre rest : List Char) (h : b ∉ pre) :
    pySplit (b :: sep') (pre ++ (b :: sep') ++ rest) =
      pre :: pySplitGo (b :: sep') rest 0 [] := by
  unfold pySplit
  rw [List.append_assoc, pySplitGo_no_sep_start b sep' pre ((b :: sep') ++ rest) [] h,
    pySplitGo_start (b :: sep') rest (pre.reverse ++ []) (by simp)]
  simp

/-- The first part of a split is the input up to the first separator
occurrence. -/
theorem pySplitGo_head (sep : List Char) :
    ∀ (s cur : List Char), ∃ ps, pySplitGo sep s 0 cur =
      (cur.reverse ++ takeBeforeSep sep s) :: ps
  | [], cur => ⟨[], by simp [pySplitGo, takeBeforeSep]⟩
  | c :: cs, cur => by
    by_cases hpre : sep.isPrefixOf (c :: cs)
    · refine ⟨pySplitGo sep cs (sep.length - 1) [], ?_⟩
      simp [pySplitGo, hpre, takeBeforeSep]
    · have hb : sep.isPrefixOf (c :: cs) = false := Bool.eq_false_iff.mpr hpre
      obtain ⟨ps, hps⟩ := pySplitGo_head sep cs (c :: cur)
      refine ⟨ps, ?_⟩
      simp only [pySplitGo, hb, Bool.false_eq_true, if_false, takeBeforeSep]
      rw [hps]
      congr 1
      simp

/-- The part before the first separator occurrence passes over any prefix
free of the separator's first character. -/
theorem takeBeforeSep_no_sep_start (b : Char) (sep' : List Char) :
    ∀ (pre t : List Char), b ∉ pre →
      takeBeforeSep (b :: sep') (pre ++ t) = pre ++ takeBeforeSep (b :: sep') t
  | [], _, _ => by simp
  | p :: ps, t, h => by
    have hp : b ≠ p := fun hc => h (by rw [hc]; exact List.mem_cons_self p ps)
    have hpre : (b :: sep').isPrefixOf (p :: (ps ++ t)) = false := by
      have hbp : (b == p) = false := beq_eq_false_iff_ne.mpr hp
      simp [List.isPrefixOf_cons₂, hbp]
    rw [List.cons_append]
    simp only [takeBeforeSep, hpre, Bool.false_eq_true, if_false]
    rw [takeBeforeSep_no_sep_start b sep' ps t (fun hm => h (List.mem_cons_of_mem _ hm))]
    simp

/-- Scanning for the next JSON-tagged fence walks over the closing bare
fence whenever the following text cannot complete a json tag across the
boundary. -/
theorem takeBeforeSep_fenceJson_fence (post : List Char)
    (h1 : jsonTag.isPrefixOf post = false)
    (h2 : (btick :: jsonTag).isPrefixOf post = false)
    (h3 : (btick :: btick :: jsonTag).isPrefixOf post = false) :
    takeBeforeSep fenceJson (fence ++ post) =
      btick :: btick :: btick :: takeBeforeSep fenceJson post := by
  have e1 : fenceJson.isPrefixOf (btick :: btick :: btick :: post) = false := by
    rw [fenceJson_eq]
    simp [List.isPrefixOf_cons₂, h1]
  have e2 : fenceJson.isPrefixOf (btick :: btick :: post) = false := by
    rw [fenceJson_eq]
    simp [List.isPrefixOf_cons₂, h2]
  have e3 : fenceJson.isPrefixOf (btick :: post) = false := by
    rw [fenceJson_eq]
    simp [List.isPrefixOf_cons₂, h3]
  rw [fence_eq]
  simp only [List.cons_append, List.nil_append]
  rw [takeBeforeSep, e1]
  simp only [Bool.false_eq_true, if_false]
  rw [takeBeforeSep, e2]
  simp only [Bool.false_eq_true, if_false]
  rw [takeBeforeSep, e3]
  simp only [Bool.false_eq_true, if_false]

/-- After the candidate block is cut at the closing fence the leftover text
starts with that fence, so the bare-fence scan stops immediately. -/
theorem takeBeforeSep_fence_stop (post : List Char)
    (h1 : jsonTag.isPrefixOf post = false)
    (h2 : (btick :: jsonTag).isPrefixOf post = false)
    (h3 : (btick :: btick :: jsonTag).isPrefixOf post = false) :
    takeBeforeSep fence (takeBeforeSep fenceJson (fence ++ post)) = [] := by
  rw [takeBeforeSep_fenceJson_fence post h1 h2 h3]
  have hpre : fence.isPrefixOf
      (btick :: btick :: btick :: takeBeforeSep fenceJson post) = true := by
    rw [fence_eq]
    simp [List.isPrefixOf_cons₂, List.isPrefixOf]
  rw [takeBeforeSep, hpre]
  simp

/-- C4 (corrected): when the JSON-tagged fenced block is the first fence of
the response (no backtick in the preceding prose or in the block content, and
the closing fence is not immediately completed into a json tag by the
following text), the extraction takes exactly the content strictly between
the first json fence and the next fence, stripped of surrounding whitespace —
the text handed to the JSON parser, which therefore returns exactly the
wrapped JSON value. -/
theorem extract_json_fenced_payload (pre mid post : List Char)
    (hpre : btick ∉ pre) (hmid : btick ∉ mid)
    (h1 : jsonTag.isPrefixOf post = false)
    (h2 : (btick :: jsonTag).isPrefixOf post = false)
    (h3 : (btick :: btick :: jsonTag).isPrefixOf post = false) :
    extract_json_text (pre ++ fenceJson ++ mid ++ fence ++ post) = pyStrip mid := by
  have hI : pre ++ fenceJson ++ mid ++ fence ++ post =
      pre ++ fenceJson ++ (mid ++ fence ++ post) := by
    simp [List.append_assoc]
  have hsplit : pySplit fenceJson (pre ++ fenceJson ++ (mid ++ fence ++ post)) =
      pre :: pySplitGo fenceJson (mid ++ fence ++ post) 0 [] := by
    rw [fenceJson_eq]
    exact pySplit_marker btick (btick :: btick :: jsonTag) pre (mid ++ fence ++ post)
      hpre
  obtain ⟨ps, hhead⟩ := pySplitGo_head fenceJson (mid ++ fence ++ post) []
  have hcont : pyContains fenceJson (pre ++ fenceJson ++ (mid ++ fence ++ post)) = true := by
    unfold pyContains
    rw [hsplit, hhead]
    simp
  have hget1 : listGet (pySplit fenceJson (pre ++ fenceJson ++ (mid ++ fence ++ post))) 1 =
      takeBeforeSep fenceJson (mid ++ fence ++ post) := by
    rw [hsplit, hhead]
    simp [listGet]
  have hT1 : takeBeforeSep fenceJson (mid ++ fence ++ post) =
      mid ++ takeBeforeSep fenceJson (fence ++ post) := by
    rw [List.append_assoc]
    rw [show takeBeforeSep fenceJson (mid ++ (fence ++ post)) =
        mid ++ takeBeforeSep fenceJson (fence ++ post) from by
      rw [fenceJson_eq]
      exact takeBeforeSep_no_sep_start btick (btick :: btick :: jsonTag) mid
        (fence ++ post) hmid]
  obtain ⟨qs, hqhead⟩ :=
    pySplitGo_head fence (takeBeforeSep fenceJson (mid ++ fence ++ post)) []
  have hget0 : listGet (pySplit fence (takeBeforeSep fenceJson (mid ++ fence ++ post))) 0 =
      takeBeforeSep fence (takeBeforeSep fenceJson (mid ++ fence ++ post)) := by
    unfold pySplit
    rw [hqhead]
    simp [listGet]
  have hfinal : takeBeforeSep fence (takeBeforeSep fenceJson (mid ++ fence ++ post)) =
      mid := by
    rw [hT1]
    rw [show takeBeforeSep fence (mid ++ takeBeforeSep fenceJson (fence ++ post)) =
        mid ++ takeBeforeSep fence (takeBeforeSep fenceJson (fence ++ post)) from by
      rw [fence_eq]
      exact takeBeforeSep_no_sep_start btick (btick :: btick :: []) mid
        (takeBeforeSep fenceJson (fence ++ post)) hmid]
    rw [takeBeforeSep_fence_stop post h1 h2 h3]
    simp
  rw [hI]
  simp only [extract_json_text, hcont, if_true]
  rw [hget1, hget0, hfinal]

/-- Witness for C4 at a concrete response: prose, a json-tagged fenced block,
and trailing prose. -/
theorem extract_json_fenced_payload_witness :
    (btick ∉ "Here is the data:\n".toList ∧
        btick ∉ "\n\x7b\"name\": \"Acme\"\x7d\n".toList ∧
        jsonTag.isPrefixOf "\nDone.".toList = false ∧
        (btick :: jsonTag).isPrefixOf "\nDone.".toList = false ∧
        (btick :: btick :: jsonTag).isPrefixOf "\nDone.".toList = false) ∧
      extract_json_text ("Here is the data:\n".toList ++ fenceJson ++
          "\n\x7b\"name\": \"Acme\"\x7d\n".toList ++ fence ++ "\nDone.".toList) =
        pyStrip "\n\x7b\"name\": \"Acme\"\x7d\n".toList ∧
      pyStrip "\n\x7b\"name\": \"Acme\"\x7d\n".toList = "\x7b\"name\": \"Acme\"\x7d".toList :=
  ⟨⟨by decide, by decide, by decide, by decide, by decide⟩,
   extract_json_fenced_payload "Here is the data:\n".toList
     "\n\x7b\"name\": \"Acme\"\x7d\n".toList "\nDone.".toList
     (by decide) (by decide) (by decide) (by decide) (by decide),
   by decide⟩

/-- C4 counterexample: with prose that itself mentions a json fence before
the real block, the extraction takes the content after the FIRST json fence
marker — prose, not the wrapped JSON value — so the claim fails for arbitrary
surrounding prose. -/
theorem extract_first_fence_counterexample :
    extract_json_text
        "Wrap the payload in ```json fences:\n```json\n\x7b\"a\": 1\x7d\n```".toList =
      "fences:".toList ∧
      pyStrip "\n\x7b\"a\": 1\x7d\n".toList = "\x7b\"a\": 1\x7d".toList ∧
      "fences:".toList ≠ "\x7b\"a\": 1\x7d".toList := by
  refine ⟨by decide, by decide, by decide⟩

end HealthMap
